import Mathlib

/-!
# Verification of the ScriptsizeFSM core (scriptsizefsm.hpp)

Shallow embedding of the ScriptsizeFSM header-only finite-state-machine
library.  The C++ core consists of:

* a state registry (`_state_instance<T>::value`): exactly one shared,
  process-wide instance per concrete state type.  Identity comparison of
  `current_state_` against a registry address decides `is_in_state`.
  In the embedding a concrete state type is a value of a tag type `σ`
  with decidable equality, and `stateInstance` maps a tag to the identity
  of its unique shared instance (the tag itself): distinct concrete
  types — even structurally identical ones — are distinct tags, hence
  distinct instances, mirroring distinct static objects having distinct
  addresses.

* the `State` capability: `entry`, `exit` and per-event `react` member
  functions, virtual with no-op defaults, dispatched on the current
  state.  States are static and hold no per-instance data; all mutable
  data lives in the FSM instance and is reached through the FSM pointer
  passed into every call.  Accordingly `entry`/`exit` are embedded as
  field transformers `σ → φ → φ` and a reaction as a list of primitive
  actions (mutate the FSM's fields, or invoke the engine's `transit`
  primitive), which covers every consumer in the repository and the
  documented contract (entry/exit do not transition; a reaction calls
  `transit` at most once — lists of other shapes exist in the model but
  are outside the documented contract).

* the `FSM` engine: `current_state_` / `init_state_` pointers, `react`,
  `transit`, `reset`, `is_in_state`, the protected constructor, the
  virtual `resetter` hook (default no-op) and the `start` factories.

Every engine operation additionally returns the list of observable
engine calls it performs (`Call`), so that ordering claims
(exit-before-reassign-before-entry, hook position, "no other entry/exit
fires") are stated about an explicit trace rather than read off the
definition informally.
-/

set_option maxHeartbeats 1000000

namespace ScriptsizeFSM

/-- Observable calls the engine makes, in order: `exitCall s` is
`current_state_->exit(this_)` dispatched to state `s`, `assignCall s` is
the reassignment `current_state_ = s`, `entryCall s` is
`current_state_->entry(this_)` dispatched to `s`, `resetterCall` is the
virtual `resetter()` hook, and `reactionCall s` is the dispatch
`current_state_->react(this_, event)` to state `s`. -/
inductive Call (σ : Type) where
  | exitCall : σ → Call σ
  | assignCall : σ → Call σ
  | entryCall : σ → Call σ
  | resetterCall : Call σ
  | reactionCall : σ → Call σ
  deriving DecidableEq, Repr

/-- Registry lookup `&_state_instance<T_State>::value`: the unique shared
instance of the concrete state type `t`.  A concrete state type is
identified with its tag, so the lookup is the identity; what matters is
that distinct tags yield distinct instances (injectivity is definitional
here), as distinct C++ statics have distinct addresses. -/
def stateInstance {σ : Type} (t : σ) : σ := t

/-- One primitive step of a concrete state's reaction body: mutate the
FSM-owned fields, or call the engine's `transit` primitive with a target
state type. -/
inductive Action (σ φ : Type) where
  | setFields : (φ → φ) → Action σ φ
  | transitTo : σ → Action σ φ

/-- The behavior a concrete FSM type supplies: the virtual `entry`,
`exit` and `react` members of its states (dispatched on the state tag;
unoverridden members are the generic no-op defaults, i.e. the identity
transformer and the empty action list) and the FSM's virtual `resetter`
hook (default no-op, i.e. the identity). -/
structure Behavior (σ φ ε : Type) where
  entry : σ → φ → φ
  exit : σ → φ → φ
  react : σ → ε → List (Action σ φ)
  resetter : φ → φ

/-- The mutable state of one FSM instance: the `init_state_` pointer
(fixed at construction), the `current_state_` pointer, and the
user-defined fields of the concrete FSM type. -/
structure FSMState (σ φ : Type) where
  init_state_ : σ
  current_state_ : σ
  fields : φ
  deriving DecidableEq, Repr

/-- The FSM constructor `FSM(init_state)` composed with the concrete
type's constructor: sets `init_state_` and `current_state_` to the given
instance and stores the user fields.  Its body makes no entry/exit call,
hence the empty trace. -/
def construct {σ φ : Type} (init : σ) (f : φ) : FSMState σ φ × List (Call σ) :=
  (⟨init, init, f⟩, [])

/-- The member factory `FSM::start<T_State_Init>(args...)`: resolves the
initial state through the registry and forwards the constructor
arguments (abstracted as a value `a : α` turned into fields by the
concrete constructor `mkFields`). -/
def FSM.start {σ φ α : Type} (mkFields : α → φ) (init : σ) (a : α) :
    FSMState σ φ × List (Call σ) :=
  construct (stateInstance init) (mkFields a)

/-- The free-standing bootstrap `scriptsizefsm::start<T_FSM, T_State_Init>`:
forwards to the member factory unchanged. -/
def start {σ φ α : Type} (mkFields : α → φ) (init : σ) (a : α) :
    FSMState σ φ × List (Call σ) :=
  FSM.start mkFields init a

/-- `FSM::is_in_state<T_State>()`: identity comparison of
`current_state_` with the registry instance of the candidate type.  A
pure function, as the const member is side-effect free. -/
def is_in_state {σ φ : Type} [DecidableEq σ] (t : σ) (m : FSMState σ φ) : Bool :=
  decide (m.current_state_ = stateInstance t)

/-- `FSM::transit<T_State>()`: exit the current state, reassign
`current_state_` to the registry instance of the target, enter the new
current state.  The trace records the three steps in source order. -/
def transit {σ φ ε : Type} (B : Behavior σ φ ε) (t : σ) (m : FSMState σ φ) :
    FSMState σ φ × List (Call σ) :=
  let f₁ := B.exit m.current_state_ m.fields
  let f₂ := B.entry (stateInstance t) f₁
  (⟨m.init_state_, stateInstance t, f₂⟩,
    [Call.exitCall m.current_state_, Call.assignCall (stateInstance t),
     Call.entryCall (stateInstance t)])

/-- `FSM::reset()`: exit the current state, reassign `current_state_` to
`init_state_`, run the virtual `resetter()` hook, enter the (now
initial) current state. -/
def reset {σ φ ε : Type} (B : Behavior σ φ ε) (m : FSMState σ φ) :
    FSMState σ φ × List (Call σ) :=
  let f₁ := B.exit m.current_state_ m.fields
  let f₂ := B.resetter f₁
  let f₃ := B.entry m.init_state_ f₂
  (⟨m.init_state_, m.init_state_, f₃⟩,
    [Call.exitCall m.current_state_, Call.assignCall m.init_state_,
     Call.resetterCall, Call.entryCall m.init_state_])

/-- Run the body of a reaction: its primitive actions in order.  A
`transitTo` action invokes the engine's `transit` primitive. -/
def runActions {σ φ ε : Type} (B : Behavior σ φ ε) :
    List (Action σ φ) → FSMState σ φ → FSMState σ φ × List (Call σ)
  | [], m => (m, [])
  | Action.setFields g :: rest, m =>
      runActions B rest ⟨m.init_state_, m.current_state_, g m.fields⟩
  | Action.transitTo t :: rest, m =>
      let r₁ := transit B t m
      let r₂ := runActions B rest r₁.1
      (r₂.1, r₁.2 ++ r₂.2)

/-- `FSM::react<T_Event>(event)`: the single dispatch
`current_state_->react(this_, event)` — the current state's reaction for
this event runs synchronously to completion. -/
def react {σ φ ε : Type} (B : Behavior σ φ ε) (e : ε) (m : FSMState σ φ) :
    FSMState σ φ × List (Call σ) :=
  let r := runActions B (B.react m.current_state_ e) m
  (r.1, Call.reactionCall m.current_state_ :: r.2)

/-- One operation a caller can perform on a live FSM instance (`transit`
is protected and reachable only from inside a reaction). -/
inductive Op (ε : Type) where
  | reactOp : ε → Op ε
  | resetOp : Op ε

/-- Apply one caller operation, keeping only the machine state. -/
def applyOp {σ φ ε : Type} (B : Behavior σ φ ε) (o : Op ε) (m : FSMState σ φ) :
    FSMState σ φ :=
  match o with
  | Op.reactOp e => (react B e m).1
  | Op.resetOp => (reset B m).1

/-- Drive one FSM instance through a sequence of caller operations. -/
def run {σ φ ε : Type} (B : Behavior σ φ ε) :
    List (Op ε) → FSMState σ φ → FSMState σ φ
  | [], m => m
  | o :: rest, m => run B rest (applyOp B o m)

/-- Iterate `reset` a given number of times. -/
def resetIter {σ φ ε : Type} (B : Behavior σ φ ε) :
    Nat → FSMState σ φ → FSMState σ φ
  | 0, m => m
  | n + 1, m => resetIter B n (reset B m).1

/-- Which of two independently constructed instances an operation of an
interleaving is addressed to. -/
inductive Tag where
  | one
  | two
  deriving DecidableEq, Repr

/-- Drive two independent FSM instances of the same FSM type through an
interleaving of caller operations; each operation is applied to the
instance its tag names. -/
def runPair {σ φ ε : Type} (B : Behavior σ φ ε) :
    List (Tag × Op ε) → FSMState σ φ × FSMState σ φ → FSMState σ φ × FSMState σ φ
  | [], p => p
  | (Tag.one, o) :: rest, p => runPair B rest ((applyOp B o p.1, p.2))
  | (Tag.two, o) :: rest, p => runPair B rest ((p.1, applyOp B o p.2))

/-- The subsequence of an interleaving addressed to one instance. -/
def opsFor {ε : Type} (t : Tag) (l : List (Tag × Op ε)) : List (Op ε) :=
  l.filterMap (fun p => if p.1 = t then some p.2 else none)

/-- Recognizer for reaction-dispatch entries of a trace. -/
def Call.isReaction {σ : Type} : Call σ → Bool
  | Call.reactionCall _ => true
  | _ => false

/-!
## The extended_switch consumer (src/tests/extended_switch.cpp)

Concrete instantiation of the engine: states `OnState` and `OffState`,
events `OnEvent(current)` and `OffEvent`, FSM fields
`initial_current_` (const) and `current_`.  The `double` members are
embedded as `ℚ`: the consumer only stores and compares these values
(never computes with them), so every operation on them is exact. -/

/-- The two concrete state types of the extended switch. -/
inductive ExtState where
  | onS
  | offS
  deriving DecidableEq, Repr

/-- The two event types of the extended switch; `OnEvent` carries a
`current` payload. -/
inductive ExtEvent where
  | onE : ℚ → ExtEvent
  | offE : ExtEvent

/-- The user-defined fields of the extended-switch FSM:
`const double initial_current_` and `double current_`. -/
structure ExtFields where
  initial_current_ : ℚ
  current_ : ℚ
  deriving DecidableEq, Repr

/-- `entry`: `GenericState` overrides it with an empty body, `OnState`
inherits that, `OffState::entry` sets `current_` to zero. -/
def extEntry : ExtState → ExtFields → ExtFields
  | ExtState.onS, f => f
  | ExtState.offS, f => { f with current_ := 0 }

/-- `exit`: no state overrides it, so the generic no-op runs. -/
def extExit : ExtState → ExtFields → ExtFields
  | _, f => f

/-- The reactions: `OnState::react(OnEvent)` stores the payload;
`OnState::react(OffEvent)` transitions to `OffState`;
`OffState::react(OnEvent)` stores the payload then transitions to
`OnState`; `OffState` has no `OffEvent` override, so the generic no-op
(empty body) runs. -/
def extReact : ExtState → ExtEvent → List (Action ExtState ExtFields)
  | ExtState.onS, ExtEvent.onE c => [Action.setFields (fun f => { f with current_ := c })]
  | ExtState.onS, ExtEvent.offE => [Action.transitTo ExtState.offS]
  | ExtState.offS, ExtEvent.onE c =>
      [Action.setFields (fun f => { f with current_ := c }),
       Action.transitTo ExtState.onS]
  | ExtState.offS, ExtEvent.offE => []

/-- The overridden `resetter()` hook: restore `current_` to
`initial_current_`. -/
def extResetter (f : ExtFields) : ExtFields := { f with current_ := f.initial_current_ }

/-- The complete behavior table of the extended-switch FSM type. -/
def extB : Behavior ExtState ExtFields ExtEvent :=
  ⟨extEntry, extExit, extReact, extResetter⟩

/-- The concrete constructor body: `initial_current_(current)`,
`current_(current)`. -/
def extMkFields (c : ℚ) : ExtFields := ⟨c, c⟩

/-- Machine after `scriptsizefsm::start<FSM, OnState>(10.)`. -/
def extM0 : FSMState ExtState ExtFields := (start extMkFields ExtState.onS (10 : ℚ)).1

/-- Machine after the subsequent `fsm.react(OffEvent())`. -/
def extM1 : FSMState ExtState ExtFields := (react extB ExtEvent.offE extM0).1

/-- Machine after the subsequent `fsm.reset()`. -/
def extM2 : FSMState ExtState ExtFields := (reset extB extM1).1

/-- Machine and trace of the final `fsm.react(OnEvent(20.))`. -/
def extFinal : FSMState ExtState ExtFields × List (Call ExtState) :=
  react extB (ExtEvent.onE 20) extM2

/-!
## Auxiliary lemmas
-/

/-- A reaction body never performs a reaction dispatch itself: its trace
contains no `reactionCall` entry. -/
theorem runActions_countP_isReaction {σ φ ε : Type} (B : Behavior σ φ ε) :
    ∀ (acts : List (Action σ φ)) (m : FSMState σ φ),
      List.countP Call.isReaction (runActions B acts m).2 = 0 := by
  intro acts
  induction acts with
  | nil => intro m; rfl
  | cons a rest ih =>
      intro m
      cases a with
      | setFields g => simpa [runActions] using ih _
      | transitTo t =>
          simp [runActions, transit, List.countP_append, List.countP_cons,
            Call.isReaction, ih]

/-- `transit` never changes `init_state_`. -/
theorem transit_init_state {σ φ ε : Type} (B : Behavior σ φ ε) (t : σ)
    (m : FSMState σ φ) : (transit B t m).1.init_state_ = m.init_state_ :=
  rfl

/-- Running a reaction body never changes `init_state_`. -/
theorem runActions_init_state {σ φ ε : Type} (B : Behavior σ φ ε) :
    ∀ (acts : List (Action σ φ)) (m : FSMState σ φ),
      (runActions B acts m).1.init_state_ = m.init_state_ := by
  intro acts
  induction acts with
  | nil => intro m; rfl
  | cons a rest ih =>
      intro m
      cases a with
      | setFields g => simpa [runActions] using ih _
      | transitTo t => simpa [runActions] using ih (transit B t m).1

/-- No caller operation changes `init_state_`. -/
theorem applyOp_init_state {σ φ ε : Type} (B : Behavior σ φ ε) (o : Op ε)
    (m : FSMState σ φ) : (applyOp B o m).init_state_ = m.init_state_ := by
  cases o with
  | reactOp e => simpa [applyOp, react] using runActions_init_state B _ m
  | resetOp => rfl

/-- No sequence of caller operations changes `init_state_`. -/
theorem run_init_state {σ φ ε : Type} (B : Behavior σ φ ε) :
    ∀ (l : List (Op ε)) (m : FSMState σ φ),
      (run B l m).init_state_ = m.init_state_ := by
  intro l
  induction l with
  | nil => intro m; rfl
  | cons o rest ih =>
      intro m
      rw [run, ih, applyOp_init_state]

/-- A field invariant preserved by every entry, exit and reaction
mutation of a behavior is preserved by running any reaction body whose
field mutations preserve it. -/
theorem runActions_preserves {σ φ ε : Type} (B : Behavior σ φ ε) (P : φ → Prop)
    (hPentry : ∀ s f, P f → P (B.entry s f))
    (hPexit : ∀ s f, P f → P (B.exit s f)) :
    ∀ (acts : List (Action σ φ)) (m : FSMState σ φ),
      (∀ g, Action.setFields g ∈ acts → ∀ f, P f → P (g f)) →
      P m.fields → P (runActions B acts m).1.fields := by
  intro acts
  induction acts with
  | nil => intro m _ hm; exact hm
  | cons a rest ih =>
      intro m hg hm
      cases a with
      | setFields g =>
          refine ih _ (fun g' hmem f hf => hg g' (List.mem_cons_of_mem _ hmem) f hf) ?_
          exact hg g (List.mem_cons_self _ _) m.fields hm
      | transitTo t =>
          rw [runActions]
          refine ih _ (fun g' hmem f hf => hg g' (List.mem_cons_of_mem _ hmem) f hf) ?_
          exact hPentry _ _ (hPexit _ _ hm)

/-- Under the correctness contract of the `resetter` hook (it restores,
together with the surrounding exit and initial entry, the construction
field values out of any invariant-respecting field state), the invariant
holds after any sequence of caller operations. -/
theorem run_preserves {σ φ ε : Type} (B : Behavior σ φ ε)
    (m₀ : FSMState σ φ) (P : φ → Prop)
    (hP0 : P m₀.fields)
    (hPentry : ∀ s f, P f → P (B.entry s f))
    (hPexit : ∀ s f, P f → P (B.exit s f))
    (hPreact : ∀ s e g, Action.setFields g ∈ B.react s e → ∀ f, P f → P (g f))
    (hrestore : ∀ s f, P f →
      B.entry m₀.init_state_ (B.resetter (B.exit s f)) = m₀.fields) :
    ∀ (l : List (Op ε)) (m : FSMState σ φ),
      m.init_state_ = m₀.init_state_ → P m.fields → P (run B l m).fields := by
  intro l
  induction l with
  | nil => intro m _ hm; exact hm
  | cons o rest ih =>
      intro m hinit hm
      rw [run]
      refine ih _ (by rw [applyOp_init_state, hinit]) ?_
      cases o with
      | reactOp e =>
          exact runActions_preserves B P hPentry hPexit _ m
            (fun g hmem f hf => hPreact _ _ g hmem f hf) hm
      | resetOp =>
          show P (reset B m).1.fields
          simp only [reset]
          rw [hinit, hrestore m.current_state_ m.fields hm]
          exact hP0

end ScriptsizeFSM

namespace ScriptsizeFSM

/-!
## Claims
-/

/-- C1: `FSM::transit<T_State>` performs exactly exit on the current
state, then the reassignment of `current_state_` to the registry
instance of the target, then entry on the new current state — in that
order with no other entry/exit call — and a self-transition (target
equal to the current state's type) is legal and still fires exit then
entry on that same instance. -/
theorem transit_exit_assign_entry_ordering {σ φ ε : Type}
    (B : Behavior σ φ ε) (t : σ) (m : FSMState σ φ) :
    transit B t m =
      (⟨m.init_state_, stateInstance t,
          B.entry (stateInstance t) (B.exit m.current_state_ m.fields)⟩,
        [Call.exitCall m.current_state_, Call.assignCall (stateInstance t),
          Call.entryCall (stateInstance t)]) ∧
    (transit B m.current_state_ m).2 =
      [Call.exitCall m.current_state_, Call.assignCall m.current_state_,
        Call.entryCall m.current_state_] :=
  ⟨rfl, rfl⟩

/-- C2: `FSM::reset` performs exactly exit on the current state, then
the reassignment of `current_state_` to `init_state_` (fixed at
construction), then the overridable `resetter` hook, and only then entry
on the (now initial) current state: the hook runs after the reassignment
and before the entry call, as both the resulting field value (the hook
applied between exit and entry) and the trace show. -/
theorem reset_exit_assign_hook_entry_ordering {σ φ ε : Type}
    (B : Behavior σ φ ε) (m : FSMState σ φ) :
    reset B m =
      (⟨m.init_state_, m.init_state_,
          B.entry m.init_state_ (B.resetter (B.exit m.current_state_ m.fields))⟩,
        [Call.exitCall m.current_state_, Call.assignCall m.init_state_,
          Call.resetterCall, Call.entryCall m.init_state_]) :=
  rfl

/-- C4: construction through the `start` bootstrap sets both
`init_state_` and `current_state_` to the registry instance of the
initial state type, stores the forwarded constructor arguments in the
user fields, and fires no entry or exit call (empty trace); immediately
afterwards `is_in_state` holds of the initial state type. -/
theorem construction_initial_state_no_entry_exit {σ φ α : Type} [DecidableEq σ]
    (mkFields : α → φ) (i : σ) (a : α) :
    (FSM.start mkFields i a).1.init_state_ = stateInstance i ∧
    (FSM.start mkFields i a).1.current_state_ = stateInstance i ∧
    (FSM.start mkFields i a).1.fields = mkFields a ∧
    is_in_state i (FSM.start mkFields i a).1 = true ∧
    (FSM.start mkFields i a).2 = [] := by
  refine ⟨rfl, rfl, rfl, ?_, rfl⟩
  simp [is_in_state, FSM.start, construct, stateInstance]

/-- C5: `is_in_state` returns true exactly when `current_state_` is the
registry's shared instance of the candidate type (a pure identity
comparison); hence for two distinct concrete state types it is never
simultaneously true of both. -/
theorem is_in_state_identity_mutual_exclusion {σ φ : Type} [DecidableEq σ]
    (m : FSMState σ φ) (t₁ t₂ : σ) (h : t₁ ≠ t₂) :
    (is_in_state t₁ m = true ↔ m.current_state_ = stateInstance t₁) ∧
    ¬(is_in_state t₁ m = true ∧ is_in_state t₂ m = true) := by
  constructor
  · simp [is_in_state]
  · rintro ⟨h₁, h₂⟩
    simp [is_in_state, stateInstance] at h₁ h₂
    exact h (h₁ ▸ h₂)

/-- Witness for C5 at a concrete machine and the two distinct state
types of the extended switch. -/
theorem is_in_state_identity_mutual_exclusion_witness :
    (is_in_state ExtState.onS extM0 = true ↔
      extM0.current_state_ = stateInstance ExtState.onS) ∧
    ¬(is_in_state ExtState.onS extM0 = true ∧
      is_in_state ExtState.offS extM0 = true) :=
  is_in_state_identity_mutual_exclusion extM0 ExtState.onS ExtState.offS (by decide)

/-- C6: one `FSM::react(event)` invocation performs exactly one
reaction dispatch, namely the current state's reaction for this event,
whose body then runs synchronously to completion (the result is the
machine after running that body, nothing is filtered, queued or
buffered); the trace contains exactly one reaction dispatch; and the
generic default reaction (which runs when the concrete state has no
override) is the empty body, whose run changes nothing and raises no
error. -/
theorem react_single_dispatch_default_noop {σ φ ε : Type}
    (B : Behavior σ φ ε) (e : ε) (m : FSMState σ φ) :
    react B e m =
      ((runActions B (B.react m.current_state_ e) m).1,
        Call.reactionCall m.current_state_ ::
          (runActions B (B.react m.current_state_ e) m).2) ∧
    List.countP Call.isReaction (react B e m).2 = 1 ∧
    runActions B ([] : List (Action σ φ)) m = (m, []) := by
  refine ⟨rfl, ?_, rfl⟩
  simp [react, List.countP_cons, Call.isReaction, runActions_countP_isReaction]

/-- C8: Scenario B of the extended switch: starting in `OnState` with
`current = 10`, `react(OffEvent)` leaves the machine in `OffState` with
`current = 0` (set by `OffState::entry`); `reset()` leaves it in
`OnState` with `current = 10` (restored by the `resetter` hook);
`react(OnEvent(20))` leaves it in `OnState` with `current = 20`, and the
trace of that last reaction shows no transition: only the reaction
dispatch, no exit, reassignment or entry. -/
theorem extended_switch_scenario_b :
    is_in_state ExtState.onS extM0 = true ∧ extM0.fields.current_ = 10 ∧
    is_in_state ExtState.offS extM1 = true ∧ extM1.fields.current_ = 0 ∧
    is_in_state ExtState.onS extM2 = true ∧ extM2.fields.current_ = 10 ∧
    is_in_state ExtState.onS extFinal.1 = true ∧ extFinal.1.fields.current_ = 20 ∧
    extFinal.2 = [Call.reactionCall ExtState.onS] := by
  decide

/-- C9: immediately after `transit` to a target state type completes,
`is_in_state` of that target returns true, whatever the previous current
state was. -/
theorem transit_postcondition_is_in_state {σ φ ε : Type} [DecidableEq σ]
    (B : Behavior σ φ ε) (t : σ) (m : FSMState σ φ) :
    is_in_state t (transit B t m).1 = true := by
  simp [is_in_state, transit, stateInstance]

/-- C10: the free-standing bootstrap `scriptsizefsm::start` produces
exactly the instance produced by the member factory `FSM::start`: it
adds nothing beyond forwarding, and the member factory itself is the
constructor applied to the registry-resolved initial state and the
forwarded arguments. -/
theorem free_start_equals_member_start {σ φ α : Type}
    (mkFields : α → φ) (i : σ) (a : α) :
    start mkFields i a = FSM.start mkFields i a ∧
    FSM.start mkFields i a = construct (stateInstance i) (mkFields a) :=
  ⟨rfl, rfl⟩

/-- C7: two independently constructed FSM instances of the same FSM type
do not interfere: after any interleaving of `react` and `reset` calls
addressed to the two instances, each instance's state (current state,
initial state and user fields) equals what driving it alone through its
own subsequence would produce. -/
theorem independent_instances_isolation {σ φ ε : Type} (B : Behavior σ φ ε)
    (l : List (Tag × Op ε)) (m₁ m₂ : FSMState σ φ) :
    runPair B l (m₁, m₂) =
      (run B (opsFor Tag.one l) m₁, run B (opsFor Tag.two l) m₂) := by
  induction l generalizing m₁ m₂ with
  | nil => rfl
  | cons p rest ih =>
      rcases p with ⟨tg, o⟩
      cases tg
      · simpa [runPair, opsFor, run, List.filterMap_cons] using
          ih (applyOp B o m₁) m₂
      · simpa [runPair, opsFor, run, List.filterMap_cons] using
          ih m₁ (applyOp B o m₂)

/-- C3: `reset` is idempotent in its observable end state.  For any FSM
whose behavior and `resetter` hook satisfy the reset contract — an
invariant `P` of the user fields holds at construction, is preserved by
every entry, exit and reaction mutation, and out of any `P`-state the
exit / `resetter` / initial-entry composition restores the
construction-time fields — any number of `reset` calls (at least one)
after any preceding sequence of operations leaves the machine in the
initial state with the construction-time field values. -/
theorem reset_observably_idempotent {σ φ ε : Type} [DecidableEq σ]
    (B : Behavior σ φ ε) (m₀ : FSMState σ φ) (P : φ → Prop)
    (hP0 : P m₀.fields)
    (hPentry : ∀ s f, P f → P (B.entry s f))
    (hPexit : ∀ s f, P f → P (B.exit s f))
    (hPreact : ∀ s e g, Action.setFields g ∈ B.react s e → ∀ f, P f → P (g f))
    (hrestore : ∀ s f, P f →
      B.entry m₀.init_state_ (B.resetter (B.exit s f)) = m₀.fields)
    (l : List (Op ε)) (n : Nat) :
    is_in_state m₀.init_state_ (resetIter B (n + 1) (run B l m₀)) = true ∧
    (resetIter B (n + 1) (run B l m₀)).fields = m₀.fields := by
  have hfix : ∀ m : FSMState σ φ, m.init_state_ = m₀.init_state_ → P m.fields →
      (reset B m).1 = ⟨m₀.init_state_, m₀.init_state_, m₀.fields⟩ := by
    intro m hinit hm
    simp only [reset]
    rw [hinit, hrestore m.current_state_ m.fields hm]
  have hiter : ∀ k : Nat,
      resetIter B k ⟨m₀.init_state_, m₀.init_state_, m₀.fields⟩ =
        ⟨m₀.init_state_, m₀.init_state_, m₀.fields⟩ := by
    intro k
    induction k with
    | zero => rfl
    | succ k ihk =>
        rw [resetIter, hfix ⟨m₀.init_state_, m₀.init_state_, m₀.fields⟩ rfl hP0, ihk]
  have hone : resetIter B (n + 1) (run B l m₀) =
      ⟨m₀.init_state_, m₀.init_state_, m₀.fields⟩ := by
    rw [resetIter,
      hfix _ (run_init_state B l m₀)
        (run_preserves B m₀ P hP0 hPentry hPexit hPreact hrestore l m₀ rfl hP0),
      hiter]
  rw [hone]
  exact ⟨by simp [is_in_state, stateInstance], rfl⟩

/-- Witness for C3: the extended-switch FSM started in `OnState` with
`current = 10`, with the invariant that `initial_current_` stays 10,
after one preceding `react(OffEvent)` and one `reset`. -/
theorem reset_observably_idempotent_witness :
    extM0.fields.initial_current_ = 10 ∧
    (is_in_state extM0.init_state_
        (resetIter extB 1 (run extB [Op.reactOp ExtEvent.offE] extM0)) = true ∧
      (resetIter extB 1 (run extB [Op.reactOp ExtEvent.offE] extM0)).fields =
        extM0.fields) := by
  refine ⟨by decide,
    reset_observably_idempotent extB extM0 (fun f => f.initial_current_ = 10)
      (by decide) ?_ ?_ ?_ ?_ [Op.reactOp ExtEvent.offE] 0⟩
  · intro s f hf
    cases s <;> simp [extB, extEntry, hf]
  · intro s f hf
    simpa [extB, extExit] using hf
  · intro s e g hg f hf
    cases s <;> cases e <;> simp [extB, extReact] at hg <;> subst hg <;> simpa using hf
  · intro s f hf
    simp [extB, extEntry, extExit, extResetter, extM0, start, FSM.start, construct,
      extMkFields, stateInstance, hf]

end ScriptsizeFSM
